import Mathlib

/-!
Verification of the castle-query ingestion/indexing pipeline and query engine
(`src/get_gmail.py`, `src/query_qdrant.py`) against its natural-language
specification.

Python strings are modelled as Lean `String`s; character-level operations
(splitting, searching, truncation) are carried out on their `List Char`
contents.  External collaborators (the Gmail API, PyPDF2, python-docx,
EmailReplyParser, Qdrant) are modelled as oracle parameters: a function from
the request to the outcome the collaborator produced, with `Except` capturing
a raised exception.  Python exception flow is modelled with the `Except`
monad: `.error` is an uncaught exception propagating to the caller.
-/

/-! ## Python string primitives -/

/-- Characters of a Python string. -/
abbrev Chars := List Char

/-- Python `str.lower()` (character-wise lowercasing). -/
def pyLower (s : String) : String := ⟨s.data.map Char.toLower⟩

/-- Boolean prefix test on character lists. -/
def isPre : Chars → Chars → Bool
  | [], _ => true
  | _ :: _, [] => false
  | a :: as, b :: bs => a = b && isPre as bs

/-- Boolean suffix test on character lists. -/
def isSuf (p l : Chars) : Bool := isPre p.reverse l.reverse

/-- Python `s.endswith(suffix)`. -/
def pyEndsWith (s suffix : String) : Bool := isSuf suffix.data s.data

/-- Python substring membership `pat in hay` on character lists. -/
def isSubstr (pat : Chars) : Chars → Bool
  | [] => isPre pat []
  | c :: cs => isPre pat (c :: cs) || isSubstr pat cs

/-- Index of the first occurrence of `pat` in `l` (`None` when absent);
models where Python `str.find`/`str.split` locate a separator. -/
def firstOccIdx (pat : Chars) : Chars → Option Nat
  | [] => if isPre pat [] then some 0 else none
  | c :: cs => if isPre pat (c :: cs) then some 0
               else (firstOccIdx pat cs).map (· + 1)

/-- Python `s.split(sep)[0]`: the part of `l` before the first occurrence of
`pat`, or all of `l` when `pat` does not occur. -/
def pySplitFirst (pat l : Chars) : Chars :=
  match firstOccIdx pat l with
  | some i => l.take i
  | none => l

/-- Python `str.strip()`: drop leading and trailing whitespace characters. -/
def trimL (l : Chars) : Chars :=
  ((l.dropWhile Char.isWhitespace).reverse.dropWhile Char.isWhitespace).reverse

/-- Python `sep.join(items)` on character lists. -/
def joinSepL (sep : Chars) : List Chars → Chars
  | [] => []
  | [w] => w
  | w :: ws => w ++ sep ++ joinSepL sep ws

/-- Python `sep.join(items)` on strings. -/
def pyJoin (sep : String) (items : List String) : String :=
  ⟨joinSepL sep.data (items.map String.data)⟩

/-! ## Text Normalizer (`strip_quoted_and_signature`, get_gmail.py lines 42-50)

`EmailReplyParser.read(body).fragments` is an external collaborator; its
output is a list of fragments, each with a `content` string and a `quoted`
flag.  The function is modelled on that fragment list. -/

/-- One reply fragment as produced by `EmailReplyParser`. -/
structure Fragment where
  content : String
  quoted : Bool

/-- The fixed signature-marker list of `strip_quoted_and_signature`. -/
def signatureMarkers : List String := ["\n--", "\nThanks", "\nBest regards", "\nSent from my"]

/-- The `for marker in [...]` loop: repeatedly truncate `l` before the first
occurrence of each marker, in the listed order, skipping absent markers. -/
def truncMarkersFold (pats : List Chars) (l : Chars) : Chars :=
  pats.foldl (fun acc pat => if (firstOccIdx pat acc).isSome then pySplitFirst pat acc else acc) l

/-- `strip_quoted_and_signature(body)` (get_gmail.py lines 42-50), given the
fragment list the reply parser produced for `body`: join the non-quoted
fragments with newlines, loop the marker truncation, and strip. -/
def strip_quoted_and_signature (fragments : List Fragment) : String :=
  let cleaned := pyJoin "\n" ((fragments.filter (fun f => !f.quoted)).map (·.content))
  ⟨trimL (truncMarkersFold (signatureMarkers.map String.data) cleaned.data)⟩

/-- First occurrence position of `pat` in `l`, defaulting to `l.length`
when `pat` does not occur. -/
def occOrLen (pat l : Chars) : Nat := (firstOccIdx pat l).getD l.length

/-- The position of the earliest occurrence of any pattern of `pats` in `l`
(`l.length` when none occurs): the spec's "first occurrence of any of the
markers". -/
def minFirstOcc (pats : List Chars) (l : Chars) : Nat :=
  pats.foldr (fun pat m => min (occOrLen pat l) m) l.length

/-- Modelled from the spec's words (§4.1): join the non-quoted fragments with
newlines, truncate everything from the first occurrence of any signature
marker onward, and trim surrounding whitespace. -/
def stripQuotedAndSignatureSpec (fragments : List Fragment) : String :=
  let cleaned := pyJoin "\n" ((fragments.filter (fun f => !f.quoted)).map (·.content))
  let joined := cleaned.data
  ⟨trimL (joined.take (minFirstOcc (signatureMarkers.map String.data) joined))⟩

/-- Shape of every signature marker: a newline followed by newline-free text. -/
def GoodMarker (p : Chars) : Prop := ∃ rest, p = '\n' :: rest ∧ '\n' ∉ rest

/-! ## Chunker (`chunk_text`, get_gmail.py lines 99-102) -/

/-- Accumulator pass of Python `str.split()` with no separator argument:
split on runs of whitespace, producing no empty tokens.  `cur` holds the
characters of the current word in reverse. -/
def splitWsAux (cur : Chars) : Chars → List Chars
  | [] => if cur = [] then [] else [cur.reverse]
  | c :: cs =>
      if c.isWhitespace then
        if cur = [] then splitWsAux [] cs else cur.reverse :: splitWsAux [] cs
      else splitWsAux (c :: cur) cs

/-- Python `text.split()`. -/
def pySplitWs (l : Chars) : List Chars := splitWsAux [] l

/-- The window grouping of `chunk_text`'s loop
`for i in range(0, len(words), chunk_size)`, each window being
`words[i : i + chunk_size]`.  A zero `chunk_size` makes Python's `range`
raise `ValueError`; the claims assume a positive chunk size and the model
returns no windows for zero. -/
def chunkWords (k : Nat) (ws : List Chars) : List (List Chars) :=
  if h : k = 0 ∨ ws = [] then []
  else ws.take k :: chunkWords k (ws.drop k)
termination_by ws.length
decreasing_by
  rw [List.length_drop]
  have h1 : k ≠ 0 := fun hk => h (Or.inl hk)
  have h2 : ws ≠ [] := fun hw => h (Or.inr hw)
  have := List.length_pos_of_ne_nil h2
  omega

/-- `chunk_text(text, chunk_size)` (get_gmail.py lines 99-102; the generator
materialised as the list of its yields): split on whitespace, group into
windows of `chunk_size` words, rejoin each window with single spaces.  The
source's default chunk size is 500; the ingestion loop passes 200. -/
def chunk_text (text : String) (chunk_size : Nat) : List String :=
  (chunkWords chunk_size (pySplitWs text.data)).map (fun w => ⟨joinSepL [' '] w⟩)

/-- Number of whitespace-separated words of a string. -/
def wordCount (s : String) : Nat := (pySplitWs s.data).length

/-- Modelled from the spec's words (§8): the whitespace-collapsed document,
its words rejoined with single spaces. -/
def collapseWs (text : String) : String := ⟨joinSepL [' '] (pySplitWs text.data)⟩

/-- A word as produced by whitespace splitting: nonempty and whitespace-free. -/
def GoodWord (w : Chars) : Prop := w ≠ [] ∧ ∀ c ∈ w, c.isWhitespace = false

/-! ## Attachment Extractor (`extract_attachment_text`, get_gmail.py lines 53-96)

PyPDF2 and python-docx are external collaborators.  A parsed PDF is its list
of per-page outcomes: `reader.pages[i]` plus `page.extract_text()` either
raises (caught by the per-page `try`) or yields a text, with `None`/empty
modelled as the empty string.  `.error` on a parse oracle models an
exception raised inside the whole-document `try` before or at parsing. -/

/-- Outcome of accessing and extracting one PDF page. -/
inductive PageResult where
  | err (msg : String)
  | txt (s : String)

/-- A parsed PDF document: its pages' extraction outcomes. -/
abbrev PdfDoc := List PageResult

/-- The 100000-character accumulation cap of the PDF loop. -/
def sizeLimit : Nat := 100000

/-- The marker appended when the accumulated PDF text is truncated. -/
def pdfTruncMarker : String := "\n[Content truncated due to size limit]"

/-- The page loop of the PDF branch (lines 71-83, duplicated at 190-202):
append each nonempty page text plus a newline, skip a failing page and
continue, and once the accumulated length exceeds `sizeLimit`, truncate to
exactly `sizeLimit`, append the marker, and stop processing pages. -/
def pdfPagesLoop : List PageResult → Chars → Chars
  | [], acc => acc
  | .err _ :: rest, acc => pdfPagesLoop rest acc
  | .txt t :: rest, acc =>
      let acc2 := if t.data ≠ [] then acc ++ t.data ++ ['\n'] else acc
      if sizeLimit < acc2.length then acc2.take sizeLimit ++ pdfTruncMarker.data
      else pdfPagesLoop rest acc2

/-- PDF text extraction after a successful parse:
`max_pages = min(50, len(reader.pages))`, so at most the first 50 pages are
visited by the loop. -/
def extractPdfText (doc : PdfDoc) : String := ⟨pdfPagesLoop (doc.take 50) []⟩

/-- The placeholder returned when the whole PDF parse fails
(`str(e)` truncated to 100 characters). -/
def pdfFailMsg (e : String) : String :=
  "[PDF processing failed: " ++ ⟨e.data.take 100⟩ ++ "]"

/-- The placeholder returned when the whole DOCX parse fails. -/
def docxFailMsg (e : String) : String :=
  "[DOCX processing failed: " ++ ⟨e.data.take 100⟩ ++ "]"

/-- Python `try: body / except Exception as e: handler(e)`. -/
def pyTryCatch {α : Type} (body : Except String α)
    (handler : String → Except String α) : Except String α :=
  match body with
  | .ok a => .ok a
  | .error e => handler e

/-- `extract_attachment_text(part, filename)` (lines 53-96), given the
decoded attachment payload through the parse oracles.  The discarded
metadata block (lines 61-66) is absorbed into the `parsePdf` outcome: any
exception it raises surfaces as `.error` of that oracle, caught by the same
`try`.  An `.error` result models an exception propagating to the caller. -/
def extract_attachment_text (parsePdf : Except String PdfDoc)
    (parseDocx : Except String (List String)) (filename : String) : Except String String :=
  if pyEndsWith (pyLower filename) ".pdf" then
    pyTryCatch
      (do
        let doc ← parsePdf
        pure (extractPdfText doc))
      (fun e => pure (pdfFailMsg e))
  else if pyEndsWith (pyLower filename) ".docx" then
    pyTryCatch
      (do
        let paras ← parseDocx
        pure (pyJoin "\n" paras))
      (fun e => pure (docxFailMsg e))
  else pure ""

/-! ## MIME Walker (`get_email_details` / `walk_parts`, get_gmail.py lines 143-238) -/

/-- The `body` object of a MIME part: optional base64 text payload and
optional attachment reference. -/
structure PartBody where
  data : Option String
  attachmentId : Option String

/-- A node of the MIME part tree; `parts` are the nested sub-parts
(empty when the `parts` key is absent). -/
inductive MimePart where
  | node (mimeType : String) (filename : Option String) (body : PartBody)
      (parts : List MimePart)

/-- Mutable state of `walk_parts`: the accumulated plain-text body and the
attachment texts in encounter order. -/
structure WalkState where
  bodyText : String
  attachmentsText : List String
deriving DecidableEq

/-- Oracles for the external collaborators touched while walking one
message: base64+decode of a text part (total: `decode(errors="ignore")`),
the attachment fetch (`attachments().get().execute()` plus
`urlsafe_b64decode`, whose failure is uncaught), the PDF and DOCX parses of
the fetched bytes (whose failures the code catches), and the reply parser
used by the normalizer. -/
structure WalkEnv where
  decodeBody : String → String
  fetchAttachment : String → Except String String
  parsePdfData : String → Except String PdfDoc
  parseDocxData : String → Except String (List String)
  replyFragments : String → List Fragment

/-- The DOCX MIME type checked at lines 165-168. -/
def docxMime : String :=
  "application/vnd.openxmlformats-officedocument.wordprocessingml.document"

/-- Handling of one part by the loop body of `walk_parts` (lines 158-214),
before recursing into its children.  An `.error` models an uncaught
exception: in particular `filename.lower()` when the part has no filename. -/
def processPart (env : WalkEnv) (p : MimePart) (st : WalkState) : Except String WalkState :=
  match p with
  | .node mimeType filename body _ =>
    if mimeType = "text/plain" then
      match body.data with
      | some d =>
          if d ≠ "" then .ok { st with bodyText := st.bodyText ++ env.decodeBody d }
          else .ok st
      | none => .ok st
    else if mimeType = "application/pdf" ∨ mimeType = docxMime then
      match body.attachmentId with
      | some attachId =>
          if attachId ≠ "" then
            match env.fetchAttachment attachId with
            | .error e => .error e
            | .ok fileData =>
              match filename with
              | none => .error "AttributeError: NoneType object has no attribute lower"
              | some fn =>
                if pyEndsWith (pyLower fn) ".pdf" then
                  match env.parsePdfData fileData with
                  | .error e =>
                      .ok { st with attachmentsText := st.attachmentsText ++ [pdfFailMsg e] }
                  | .ok doc =>
                      .ok { st with attachmentsText := st.attachmentsText ++ [extractPdfText doc] }
                else if pyEndsWith (pyLower fn) ".docx" then
                  match env.parseDocxData fileData with
                  | .error e =>
                      .ok { st with attachmentsText := st.attachmentsText ++ [docxFailMsg e] }
                  | .ok paras =>
                      .ok { st with attachmentsText := st.attachmentsText ++ [pyJoin "\n" paras] }
                else .ok st
          else .ok st
      | none => .ok st
    else .ok st

mutual

/-- One iteration of the `for part in parts` loop: handle the part, then
recurse into its nested parts (`if "parts" in part`). -/
def walkPart (env : WalkEnv) (p : MimePart) (st : WalkState) : Except String WalkState :=
  match p with
  | .node mt fn bd sub =>
    match processPart env (.node mt fn bd sub) st with
    | .error e => .error e
    | .ok st2 => walkParts env sub st2

/-- `walk_parts(parts)` (lines 156-216) over a list of sibling parts. -/
def walkParts (env : WalkEnv) (ps : List MimePart) (st : WalkState) : Except String WalkState :=
  match ps with
  | [] => .ok st
  | p :: rest =>
    match walkPart env p st with
    | .error e => .error e
    | .ok st2 => walkParts env rest st2

end

/-- A fetched message: the `messages().get(format="full")` response. -/
structure RawMessage where
  headers : List (String × String)
  threadId : Option String
  payloadParts : Option (List MimePart)
  payloadBody : PartBody

/-- The header dict comprehension followed by `.get(name, "")`: a later
header with the same name overwrites an earlier one; missing names give "". -/
def headerGet (hs : List (String × String)) (name : String) : String :=
  ((hs.reverse.find? (fun h => h.1 = name)).map (fun h => h.2)).getD ""

/-- The record returned by `get_email_details` (lines 230-238). -/
structure EmailDetails where
  id : String
  thread_id : Option String
  subject : String
  sender : String
  «to» : String
  date : String
  text : String
deriving DecidableEq

/-- `get_email_details(service, msg_id)` (lines 143-238), given the fetched
message and the walk oracles.  An `.error` result models an uncaught
exception aborting the call. -/
def get_email_details (env : WalkEnv) (msg : RawMessage) (msgId : String) :
    Except String EmailDetails :=
  let subject := headerGet msg.headers "Subject"
  let sender := headerGet msg.headers "From"
  let toAddr := headerGet msg.headers "To"
  let date := headerGet msg.headers "Date"
  let walked : Except String WalkState :=
    match msg.payloadParts with
    | some parts => walkParts env parts ⟨"", []⟩
    | none =>
        .ok ⟨match msg.payloadBody.data with
             | some d => if d ≠ "" then env.decodeBody d else ""
             | none => "", []⟩
  match walked with
  | .error e => .error e
  | .ok st =>
      let body_text := strip_quoted_and_signature (env.replyFragments st.bodyText)
      let full0 := "Subject: " ++ subject ++ "\nFrom: " ++ sender ++ "\nTo: " ++ toAddr
        ++ "\nDate: " ++ date ++ "\n\n" ++ body_text
      let full_text :=
        if st.attachmentsText ≠ [] then
          full0 ++ "\n\nAttachments:\n" ++ pyJoin "\n" st.attachmentsText
        else full0
      .ok ⟨msgId, msg.threadId, subject, sender, toAddr, date, full_text⟩

/-! ## Ingestion Pipeline (`main`, get_gmail.py lines 241-280) -/

/-- One Qdrant point as constructed in `main`'s chunk loop:
`PointStruct(id=point_id_counter, vector=vec, payload=details)`.  The
vector type is a parameter (the embedding model is a collaborator). -/
structure IndexedPoint (V : Type) where
  id : Nat
  vector : V
  payload : EmailDetails

/-- The chunk loop of `main` (lines 270-273) for one message: one point per
chunk of the 200-word chunking of the message's composite text, identifiers
assigned sequentially from `startId`, payload the whole `details` record. -/
def pointsForMessage {V : Type} (encode : String → V) (startId : Nat)
    (details : EmailDetails) : List (IndexedPoint V) :=
  (chunk_text details.text 200).enum.map
    (fun p => { id := startId + p.1, vector := encode p.2, payload := details })

/-- The message loop of `main` (lines 268-273), threading the point list and
the id counter; an `.error` from `get_email_details` aborts the run. -/
def ingestLoop {V : Type} (env : WalkEnv) (fetchMsg : String → RawMessage)
    (encode : String → V) :
    List String → List (IndexedPoint V) → Nat → Except String (List (IndexedPoint V) × Nat)
  | [], pts, ctr => .ok (pts, ctr)
  | mid :: rest, pts, ctr =>
    match get_email_details env (fetchMsg mid) mid with
    | .error e => .error e
    | .ok d =>
        ingestLoop env fetchMsg encode rest (pts ++ pointsForMessage encode ctr d)
          (ctr + (pointsForMessage encode ctr d).length)

/-- Modelled from the spec's words (§4.3): the header block, one header per
line, followed by the blank line. -/
def headerBlockSpec (subject sender toAddr date : String) : String :=
  "Subject: " ++ subject ++ "\nFrom: " ++ sender ++ "\nTo: " ++ toAddr ++ "\nDate: " ++ date ++ "\n\n"

/-- Modelled from the spec's words (§4.3): the "Attachments:" section
listing the extracted attachment texts. -/
def attachSectionSpec (atts : List String) : String :=
  "\n\nAttachments:\n" ++ pyJoin "\n" atts

/-- The walk environment of the C6 counterexample: the PDF attachment
fetches and parses successfully but the parsed document has no pages, so
its extracted text is empty. -/
def emptyPdfEnv : WalkEnv :=
  { decodeBody := fun d => d,
    fetchAttachment := fun a => .ok a,
    parsePdfData := fun _ => .ok [],
    parseDocxData := fun _ => .ok [],
    replyFragments := fun s => [⟨s, false⟩] }

/-- The message of the C6 counterexample: a single PDF attachment part,
no text parts, empty headers. -/
def emptyPdfMsg : RawMessage :=
  { headers := [],
    threadId := none,
    payloadParts := some [.node "application/pdf" (some "a.pdf") ⟨none, some "att1"⟩ []],
    payloadBody := ⟨none, none⟩ }

/-! ## Sync Tracker (`fetch_new_messages`, get_gmail.py lines 105-140) -/

/-- One record of the history response, carrying the ids of its `messages`
list (`h.get("messages", [])`, each entry contributing `m["id"]`). -/
structure HistoryRecord where
  messages : List String

/-- The history response: the `history` key may be absent. -/
structure HistoryResponse where
  history : Option (List HistoryRecord)

/-- Oracles for the Gmail service calls of `fetch_new_messages`: the
change-log query (which may raise), the recent-message listing, and the
profile's current historyId. -/
structure SyncOracle where
  historyList : String → Except String HistoryResponse
  messagesList : Nat → List String
  profileHistoryId : String

/-- The observable outcome of one `fetch_new_messages` run: the returned
ids, whether the fallback recent-message listing was invoked, and the
cursor written to the history file. -/
structure FetchResult where
  messageIds : List String
  usedFallback : Bool
  savedCursor : String
deriving DecidableEq

/-- The id-collection loop of lines 118-122. -/
def collectHistoryIds (resp : HistoryResponse) : List String :=
  match resp.history with
  | none => []
  | some hs => (hs.map (fun h => h.messages)).flatten

/-- `fetch_new_messages(service, max_results)` (lines 105-140), given the
cursor file's content (`none` when the file does not exist).  On an
exception from the history query the code sets `message_ids = None`; it
then tests `if not message_ids:` — true for `None` and also for the empty
list — and in that case fetches the latest `max_results` messages. -/
def fetch_new_messages (g : SyncOracle) (cursor : Option String)
    (max_results : Nat) : FetchResult :=
  let midsOpt : Option (List String) :=
    match cursor with
    | some c =>
      match g.historyList c with
      | .ok resp => some (collectHistoryIds resp)
      | .error _ => none
    | none => none
  match midsOpt with
  | some ids =>
      if ids = [] then
        { messageIds := g.messagesList max_results, usedFallback := true,
          savedCursor := g.profileHistoryId }
      else
        { messageIds := ids, usedFallback := false,
          savedCursor := g.profileHistoryId }
  | none =>
      { messageIds := g.messagesList max_results, usedFallback := true,
        savedCursor := g.profileHistoryId }

/-- The Sync Oracle of the C1 failing input: the history query succeeds and
reports zero "message added" events, and the mailbox listing holds one
message id "m1". -/
def zeroEventsOracle : SyncOracle :=
  { historyList := fun _ => .ok ⟨some []⟩,
    messagesList := fun _ => ["m1"],
    profileHistoryId := "99" }

/-! ## Query Engine (`query_all_points`, query_qdrant.py lines 55-175) -/

/-- A JSON-ish payload value as stored in a point. -/
inductive PValue where
  | str (s : String)
  | int (n : Int)
  | boolean (b : Bool)
deriving DecidableEq

/-- A stored point as returned by `client.scroll` (vectors omitted,
`with_vectors=False`). -/
structure QPoint where
  id : Nat
  payload : List (String × PValue)
deriving DecidableEq

/-- Python `point.payload.get(key, "")`: the value at `key`, defaulting to
the empty string. -/
def payloadGet (payload : List (String × PValue)) (key : String) : PValue :=
  ((payload.find? (fun kv => kv.1 = key)).map (fun kv => kv.2)).getD (.str "")

/-- One filter condition: `FieldCondition(key=..., match=MatchValue(value=...))`. -/
structure Condition where
  key : String
  value : String
deriving DecidableEq

/-- The condition building of lines 69-77: one condition per provided
truthy (nonempty) filter, in the order subject, sender, url, category. -/
def buildConditions (fsub fsen furl fcat : Option String) : List Condition :=
  (match fsub with
   | some s => if s ≠ "" then [⟨"subject", s⟩] else []
   | none => []) ++
  (match fsen with
   | some s => if s ≠ "" then [⟨"sender", s⟩] else []
   | none => []) ++
  (match furl with
   | some s => if s ≠ "" then [⟨"url", s⟩] else []
   | none => []) ++
  (match fcat with
   | some s => if s ≠ "" then [⟨"category", s⟩] else []
   | none => [])

/-- The per-condition test of lines 96-108: for a string field,
`expected.lower() in actual.lower()`; otherwise `actual != expected` fails
the point (exact equality, which never holds between a non-string field and
the string filter value). -/
def conditionMatches (p : QPoint) (c : Condition) : Bool :=
  match payloadGet p.payload c.key with
  | .str actual => isSubstr (pyLower c.value).data (pyLower actual).data
  | v => v == PValue.str c.value

/-- The client-side filtering step of `query_all_points` (lines 90-113):
the fetched page is filtered in Python, and only when conditions exist. -/
def query_all_points_filter (page : List QPoint)
    (fsub fsen furl fcat : Option String) : List QPoint :=
  let conds := buildConditions fsub fsen furl fcat
  if conds ≠ [] then page.filter (fun p => conds.all (conditionMatches p)) else page

/-- Python `str(value)` for payload values. -/
def pyStrOf : PValue → String
  | .str s => s
  | .int n => toString n
  | .boolean b => if b then "True" else "False"

/-- The quote-doubling `value.replace` of line 167. -/
def doubleQuotes : Chars → Chars
  | [] => []
  | c :: cs => if c = '"' then '"' :: '"' :: doubleQuotes cs else c :: doubleQuotes cs

/-- One CSV field (lines 164-170): a string value is quote-doubled and
wrapped in double quotes; any other value is `str()`-ed and wrapped without
doubling. -/
def csvField : PValue → String
  | .str s => "\"" ++ ⟨doubleQuotes s.data⟩ ++ "\""
  | v => "\"" ++ pyStrOf v ++ "\""

/-- Lexicographic code-point comparison of character lists: the order
Python uses to compare strings. -/
def charsLe : Chars → Chars → Bool
  | [], _ => true
  | _ :: _, [] => false
  | a :: as, b :: bs => if a.toNat = b.toNat then charsLe as bs else decide (a.toNat < b.toNat)

/-- Python string `<=`. -/
def strLe (a b : String) : Bool := charsLe a.data b.data

/-- Python `sorted` on strings, realised as insertion sort over the
code-point order. -/
def sortStrings (l : List String) : List String :=
  List.insertionSort (fun a b => strLe a b = true) l

/-- The key collection of the CSV branch (lines 149-155): the union of all
payload keys (set semantics), sorted for consistent output. -/
def sortedPayloadKeys (points : List QPoint) : List String :=
  sortStrings ((points.foldl (fun acc p => acc ++ p.payload.map (fun kv => kv.1)) []).dedup)

/-- The CSV header row (line 158). -/
def csvHeader (keys : List String) : String :=
  "id," ++ pyJoin "," (keys.map (fun k => "\"" ++ k ++ "\""))

/-- One CSV data row (lines 161-171): the unquoted `str(point.id)` followed
by the quoted field for each key. -/
def csvRow (keys : List String) (p : QPoint) : String :=
  pyJoin "," (Nat.repr p.id :: keys.map (fun k => csvField (payloadGet p.payload k)))

/-- The CSV rendering of `query_all_points` (lines 146-171), as the list of
printed lines. -/
def query_all_points_csv (points : List QPoint) : List String :=
  if points ≠ [] then
    csvHeader (sortedPayloadKeys points) :: points.map (csvRow (sortedPayloadKeys points))
  else []

/-! ## Theorems -/

/-! ## Occurrence lemmas for the marker truncation -/

theorem isPre_iff (p l : Chars) : isPre p l = true ↔ p <+: l := by
  induction p generalizing l with
  | nil => simp [isPre]
  | cons a as ih =>
    cases l with
    | nil => simp [isPre]
    | cons b bs => simp [isPre, List.cons_prefix_cons, ih]

theorem takePre (n : Nat) (l : Chars) : l.take n <+: l :=
  ⟨l.drop n, List.take_append_drop n l⟩

theorem firstOccIdx_some (pat l : Chars) (i : Nat) (h : firstOccIdx pat l = some i) :
    pat <+: l.drop i ∧ ∀ m, m < i → ¬ pat <+: l.drop m := by
  induction l generalizing i with
  | nil =>
    simp only [firstOccIdx] at h
    split at h
    · cases h
      refine ⟨by simpa [isPre_iff] using ‹isPre pat [] = true›, ?_⟩
      intro m hm; omega
    · cases h
  | cons c cs ih =>
    simp only [firstOccIdx] at h
    split at h
    · cases h
      refine ⟨by simpa [isPre_iff] using ‹isPre pat (c :: cs) = true›, ?_⟩
      intro m hm; omega
    · rename_i hpre
      cases hfoi : firstOccIdx pat cs with
      | none => rw [hfoi] at h; cases h
      | some j =>
        rw [hfoi] at h
        simp only [Option.map_some'] at h
        cases h
        obtain ⟨h1, h2⟩ := ih j hfoi
        refine ⟨by simpa using h1, ?_⟩
        intro m hm
        cases m with
        | zero =>
          simpa [isPre_iff] using hpre
        | succ m =>
          simpa using h2 m (by omega)

theorem firstOccIdx_none (pat l : Chars) (h : firstOccIdx pat l = none) :
    ∀ m, ¬ pat <+: l.drop m := by
  induction l with
  | nil =>
    simp only [firstOccIdx] at h
    split at h
    · cases h
    · intro m
      simpa [isPre_iff, List.drop_nil] using ‹¬ isPre pat [] = true›
  | cons c cs ih =>
    simp only [firstOccIdx] at h
    split at h
    · cases h
    · rename_i hpre
      cases hfoi : firstOccIdx pat cs with
      | some j => rw [hfoi] at h; cases h
      | none =>
        intro m
        cases m with
        | zero => simpa [isPre_iff] using hpre
        | succ m => simpa using ih hfoi m

theorem firstOccIdx_of (pat l : Chars) (i : Nat) (h1 : pat <+: l.drop i)
    (h2 : ∀ m, m < i → ¬ pat <+: l.drop m) : firstOccIdx pat l = some i := by
  cases hfoi : firstOccIdx pat l with
  | none => exact absurd h1 (firstOccIdx_none pat l hfoi i)
  | some j =>
    obtain ⟨hj1, hj2⟩ := firstOccIdx_some pat l j hfoi
    rcases Nat.lt_trichotomy i j with hlt | heq | hgt
    · exact absurd h1 (hj2 i hlt)
    · rw [heq]
    · exact absurd hj1 (h2 j hgt)

theorem occ_bound (pat l : Chars) (i : Nat) (hne : pat ≠ []) (h : pat <+: l.drop i) :
    i + pat.length ≤ l.length ∧ i < l.length := by
  have hlen : pat.length ≤ (l.drop i).length := h.length_le
  rw [List.length_drop] at hlen
  have hp : 0 < pat.length := List.length_pos_of_ne_nil hne
  have hi : i < l.length := by
    by_contra hc
    push_neg at hc
    omega
  exact ⟨by omega, hi⟩

theorem occ_in_take (pat l : Chars) (a m : Nat) (hne : pat ≠ []) :
    pat <+: (l.take a).drop m ↔ pat <+: l.drop m ∧ m + pat.length ≤ a := by
  constructor
  · intro h
    rw [List.drop_take] at h
    have h1 : pat <+: l.drop m := h.trans (takePre _ _)
    have h2 : pat.length ≤ a - m := by
      have := h.length_le
      rw [List.length_take] at this
      omega
    have hma : m < a := by
      by_contra hc
      push_neg at hc
      have : a - m = 0 := by omega
      rw [this, List.take_zero, List.prefix_nil] at h
      exact hne h
    exact ⟨h1, by omega⟩
  · rintro ⟨⟨s, hs⟩, hlen⟩
    rw [List.drop_take, ← hs, List.take_append_eq_append_take,
      List.take_of_length_le (by omega)]
    exact ⟨s.take (a - m - pat.length), rfl⟩

theorem goodMarker_ne_nil {p : Chars} (h : GoodMarker p) : p ≠ [] := by
  obtain ⟨rest, rfl, -⟩ := h; simp

/-- Occurrences of two newline-led, internally newline-free markers cannot
overlap: a later occurrence starts at or after the end of an earlier one. -/
theorem goodMarker_no_overlap (A B : Chars) (l : Chars) (i j : Nat)
    (hA : GoodMarker A) (hB : GoodMarker B)
    (hiA : A <+: l.drop i) (hjB : B <+: l.drop j)
    (hji : j < i) (hover : i < j + B.length) : False := by
  obtain ⟨ra, rfl, -⟩ := hA
  obtain ⟨rb, rfl, hrb⟩ := hB
  obtain ⟨sa, hsa⟩ := hiA
  obtain ⟨sb, hsb⟩ := hjB
  -- The drop at `i` factors through the drop at `j`.
  have hdro : l.drop i = List.drop (i - j) (l.drop j) := by
    rw [List.drop_drop]
    congr 1
    omega
  rw [← hsb] at hdro
  -- Inside B's occurrence, position `i - j` carries a character of `rb`.
  have hd : i - j - 1 < rb.length := by
    simp only [List.length_cons] at hover
    omega
  have hstep : List.drop (i - j) (('\n' :: rb) ++ sb) = List.drop (i - j - 1) (rb ++ sb) := by
    have : i - j = (i - j - 1) + 1 := by omega
    rw [this]
    rfl
  rw [hstep] at hdro
  have hhead : (List.drop (i - j - 1) (rb ++ sb)).head? = some '\n' := by
    rw [← hdro, ← hsa]
    rfl
  rw [List.head?_drop, List.getElem?_append_left (by omega),
    List.getElem?_eq_getElem hd] at hhead
  injection hhead with hmem
  exact hrb (hmem ▸ List.getElem_mem hd)

theorem occOrLen_le_length (pat l : Chars) (hne : pat ≠ []) : occOrLen pat l ≤ l.length := by
  unfold occOrLen
  cases hfoi : firstOccIdx pat l with
  | none => simp
  | some i =>
    obtain ⟨h1, -⟩ := firstOccIdx_some pat l i hfoi
    have := (occ_bound pat l i hne h1).2
    simpa using this.le

theorem occOrLen_take_marker (A B l : Chars) (hA : GoodMarker A) (hB : GoodMarker B) :
    min (occOrLen A l) (occOrLen B (l.take (occOrLen A l)))
      = min (occOrLen A l) (occOrLen B l) := by
  have hAne := goodMarker_ne_nil hA
  have hBne := goodMarker_ne_nil hB
  set a := occOrLen A l with ha
  have ha_le : a ≤ l.length := occOrLen_le_length A l hAne
  have hlen_take : (l.take a).length = a := by
    rw [List.length_take]
    omega
  cases hfB : firstOccIdx B l with
  | none =>
    have hnone : firstOccIdx B (l.take a) = none := by
      cases hfB1 : firstOccIdx B (l.take a) with
      | none => rfl
      | some m =>
        obtain ⟨hm1, -⟩ := firstOccIdx_some B (l.take a) m hfB1
        rw [occ_in_take B l a m hBne] at hm1
        exact absurd hm1.1 (firstOccIdx_none B l hfB m)
    unfold occOrLen
    rw [hfB, hnone]
    simp only [Option.getD_none, hlen_take]
    omega
  | some j =>
    obtain ⟨hj1, hj2⟩ := firstOccIdx_some B l j hfB
    by_cases hcase : j + B.length ≤ a
    · have hsome : firstOccIdx B (l.take a) = some j := by
        apply firstOccIdx_of
        · rw [occ_in_take B l a j hBne]
          exact ⟨hj1, hcase⟩
        · intro m hm hocc
          rw [occ_in_take B l a m hBne] at hocc
          exact hj2 m hm hocc.1
      unfold occOrLen
      rw [hfB, hsome]
      simp
    · have hnone : firstOccIdx B (l.take a) = none := by
        cases hfB1 : firstOccIdx B (l.take a) with
        | none => rfl
        | some m =>
          obtain ⟨hm1, -⟩ := firstOccIdx_some B (l.take a) m hfB1
          rw [occ_in_take B l a m hBne] at hm1
          obtain ⟨hm1, hm2⟩ := hm1
          rcases Nat.lt_or_ge m j with hmj | hmj
          · exact absurd hm1 (hj2 m hmj)
          · omega
      have haj : a ≤ j := by
        by_contra hc
        push_neg at hc
        cases hfA : firstOccIdx A l with
        | none =>
          have : j + B.length ≤ l.length := (occ_bound B l j hBne hj1).1
          have : a = l.length := by
            rw [ha]
            unfold occOrLen
            rw [hfA]
            simp
          omega
        | some i =>
          obtain ⟨hi1, -⟩ := firstOccIdx_some A l i hfA
          have hia : i = a := by
            rw [ha]
            unfold occOrLen
            rw [hfA]
            simp
          exact goodMarker_no_overlap A B l i j hA hB hi1 hj1 (by omega) (by omega)
      unfold occOrLen
      rw [hfB, hnone]
      simp only [Option.getD_none, Option.getD_some, hlen_take]
      omega

theorem minFirstOcc_take_marker (pats : List Chars) (A l : Chars) (hA : GoodMarker A)
    (hpats : ∀ p ∈ pats, GoodMarker p) :
    min (occOrLen A l) (minFirstOcc pats (l.take (occOrLen A l)))
      = min (occOrLen A l) (minFirstOcc pats l) := by
  induction pats with
  | nil =>
    have ha_le : occOrLen A l ≤ l.length := occOrLen_le_length A l (goodMarker_ne_nil hA)
    simp only [minFirstOcc, List.foldr_nil, List.length_take]
    omega
  | cons B rest ih =>
    have hgB : GoodMarker B := hpats B (by simp)
    have hrest : ∀ p ∈ rest, GoodMarker p := fun p hp => hpats p (by simp [hp])
    simp only [minFirstOcc, List.foldr_cons] at *
    rw [inf_inf_distrib_left, occOrLen_take_marker A B l hA hgB, ih hrest,
      ← inf_inf_distrib_left]

theorem truncMarkersFold_eq_take (pats : List Chars) (l : Chars)
    (hpats : ∀ p ∈ pats, GoodMarker p) :
    truncMarkersFold pats l = l.take (minFirstOcc pats l) := by
  induction pats generalizing l with
  | nil => simp [truncMarkersFold, minFirstOcc]
  | cons A rest ih =>
    have hgA : GoodMarker A := hpats A (by simp)
    have hrest : ∀ p ∈ rest, GoodMarker p := fun p hp => hpats p (by simp [hp])
    have hstep : (if (firstOccIdx A l).isSome then pySplitFirst A l else l)
        = l.take (occOrLen A l) := by
      cases hfA : firstOccIdx A l with
      | none => simp [occOrLen, hfA]
      | some i => simp [occOrLen, hfA, pySplitFirst]
    have : truncMarkersFold (A :: rest) l
        = truncMarkersFold rest (l.take (occOrLen A l)) := by
      simp only [truncMarkersFold, List.foldl_cons, hstep]
    rw [this, ih _ hrest, List.take_take]
    have : min (minFirstOcc rest (l.take (occOrLen A l))) (occOrLen A l)
        = min (occOrLen A l) (minFirstOcc rest l) := by
      rw [min_comm]
      exact minFirstOcc_take_marker rest A l hgA hrest
    rw [this]
    simp [minFirstOcc]

theorem signatureMarkers_good : ∀ p ∈ signatureMarkers.map String.data, GoodMarker p := by
  intro p hp
  simp only [signatureMarkers, List.map_cons, List.map_nil, List.mem_cons,
    List.not_mem_nil, or_false] at hp
  rcases hp with rfl | rfl | rfl | rfl
  · exact ⟨['-', '-'], by decide, by decide⟩
  · exact ⟨['T', 'h', 'a', 'n', 'k', 's'], by decide, by decide⟩
  · exact ⟨"Best regards".data, by decide, by decide⟩
  · exact ⟨"Sent from my".data, by decide, by decide⟩

/-- C7: for every raw body string (given the reply parser's fragments for
it), `strip_quoted_and_signature` joins the non-quoted fragments with
newlines in original order, truncates everything from the first (earliest)
occurrence of any of the markers "\n--", "\nThanks", "\nBest regards",
"\nSent from my" onward, and trims surrounding whitespace: the sequential
per-marker truncation loop of the code computes exactly the earliest-marker
truncation of the spec. -/
theorem strip_quoted_matches_earliest_marker_truncation (fragments : List Fragment) :
    strip_quoted_and_signature fragments = stripQuotedAndSignatureSpec fragments := by
  unfold strip_quoted_and_signature stripQuotedAndSignatureSpec
  exact congrArg (fun l => String.mk (trimL l))
    (truncMarkersFold_eq_take _ _ signatureMarkers_good)

theorem splitWsAux_good (l : Chars) : ∀ cur, (∀ c ∈ cur, c.isWhitespace = false) →
    ∀ w ∈ splitWsAux cur l, GoodWord w := by
  induction l with
  | nil =>
    intro cur hcur w hw
    simp only [splitWsAux] at hw
    split at hw
    · simp at hw
    · rename_i hne
      simp only [List.mem_singleton] at hw
      subst hw
      refine ⟨by simpa using hne, ?_⟩
      intro c hc
      exact hcur c (by simpa using hc)
  | cons c cs ih =>
    intro cur hcur w hw
    simp only [splitWsAux] at hw
    by_cases hws : c.isWhitespace
    · rw [if_pos hws] at hw
      split at hw
      · exact ih [] (by simp) w hw
      · rename_i hne
        rcases List.mem_cons.mp hw with rfl | hw2
        · refine ⟨by simpa using hne, ?_⟩
          intro d hd
          exact hcur d (by simpa using hd)
        · exact ih [] (by simp) w hw2
    · rw [if_neg hws] at hw
      refine ih (c :: cur) ?_ w hw
      intro d hd
      rcases List.mem_cons.mp hd with rfl | hd2
      · simpa using hws
      · exact hcur d hd2

theorem splitWsAux_word (w : Chars) (hw : ∀ c ∈ w, c.isWhitespace = false) :
    ∀ cur r, splitWsAux cur (w ++ r) = splitWsAux (w.reverse ++ cur) r := by
  induction w with
  | nil => intro cur r; simp
  | cons a w' ih =>
    intro cur r
    have ha : a.isWhitespace = false := hw a (by simp)
    simp only [List.cons_append, splitWsAux, ha, Bool.false_eq_true, if_false,
      List.reverse_cons, List.append_assoc, List.singleton_append]
    exact ih (fun c hc => hw c (by simp [hc])) (a :: cur) r

theorem pySplitWs_word_sep (w r : Chars) (hw : GoodWord w) :
    pySplitWs (w ++ ' ' :: r) = w :: pySplitWs r := by
  obtain ⟨hne, hfree⟩ := hw
  unfold pySplitWs
  rw [splitWsAux_word w hfree [] (' ' :: r)]
  have hrev : w.reverse ++ [] ≠ [] := by simpa using hne
  simp only [List.append_nil] at hrev ⊢
  simp [splitWsAux, hrev, Char.isWhitespace]

theorem pySplitWs_word (w : Chars) (hw : GoodWord w) : pySplitWs w = [w] := by
  obtain ⟨hne, hfree⟩ := hw
  unfold pySplitWs
  have := splitWsAux_word w hfree [] []
  rw [List.append_nil] at this
  rw [this]
  have hrev : w.reverse ++ [] ≠ [] := by simpa using hne
  simp only [List.append_nil] at hrev ⊢
  simp [splitWsAux, hrev]

theorem pySplitWs_join (ws : List Chars) (h : ∀ w ∈ ws, GoodWord w) :
    pySplitWs (joinSepL [' '] ws) = ws := by
  induction ws with
  | nil => simp [pySplitWs, joinSepL, splitWsAux]
  | cons w rest ih =>
    cases rest with
    | nil =>
      simpa [joinSepL] using pySplitWs_word w (h w (by simp))
    | cons x xs =>
      have hjoin : joinSepL [' '] (w :: x :: xs) = w ++ ' ' :: joinSepL [' '] (x :: xs) := by
        simp [joinSepL]
      rw [hjoin, pySplitWs_word_sep w _ (h w (by simp))]
      rw [ih (fun v hv => h v (by simp [hv]))]

theorem pySplitWs_all_ws (l : Chars) (h : ∀ c ∈ l, c.isWhitespace = true) :
    pySplitWs l = [] := by
  unfold pySplitWs
  induction l with
  | nil => simp [splitWsAux]
  | cons c cs ih =>
    have hc : c.isWhitespace = true := h c (by simp)
    simp only [splitWsAux, hc, if_true, if_pos rfl]
    exact ih (fun d hd => h d (by simp [hd]))

theorem chunkWords_nil (k : Nat) : chunkWords k [] = [] := by
  unfold chunkWords
  simp

theorem chunkWords_flatten (k : Nat) (hk : 0 < k) (ws : List Chars) :
    (chunkWords k ws).flatten = ws := by
  induction ws using chunkWords.induct k with
  | case1 ws h =>
    rcases h with h | h
    · omega
    · subst h
      simp [chunkWords_nil]
  | case2 ws h ih =>
    rw [chunkWords]
    rw [dif_neg h]
    simp only [List.flatten_cons, ih]
    exact List.take_append_drop k ws

theorem joinSepL_cons_cons (s w x : Chars) (xs : List Chars) :
    joinSepL s (w :: x :: xs) = w ++ s ++ joinSepL s (x :: xs) := rfl

theorem chunkWords_window_le (k : Nat) (hk : 0 < k) (ws : List Chars) :
    ∀ c ∈ chunkWords k ws, c ≠ [] ∧ c.length ≤ k := by
  induction ws using chunkWords.induct k with
  | case1 ws h =>
    rcases h with h | h
    · omega
    · subst h
      simp [chunkWords_nil]
  | case2 ws h ih =>
    intro c hc
    rw [chunkWords, dif_neg h] at hc
    rcases List.mem_cons.mp hc with rfl | hc2
    · have hws : ws ≠ [] := fun hw => h (Or.inr hw)
      have hlen := List.length_pos_of_ne_nil hws
      have htk : (List.take k ws).length = min k ws.length := List.length_take k ws
      constructor
      · intro hemp
        rw [hemp] at htk
        simp only [List.length_nil] at htk
        omega
      · omega
    · exact ih c hc2

theorem chunkWords_window_eq (k : Nat) (hk : 0 < k) (ws : List Chars) :
    ∀ i, i + 1 < (chunkWords k ws).length →
      (((chunkWords k ws)[i]?).getD []).length = k := by
  induction ws using chunkWords.induct k with
  | case1 ws h =>
    rcases h with h | h
    · omega
    · subst h
      simp [chunkWords_nil]
  | case2 ws h ih =>
    intro i hi
    rw [chunkWords, dif_neg h] at hi ⊢
    cases i with
    | zero =>
      have hrest : chunkWords k (ws.drop k) ≠ [] := by
        simp only [List.length_cons] at hi
        intro hemp
        rw [hemp] at hi
        simp at hi
      have hdrop : ws.drop k ≠ [] := by
        intro hd
        rw [hd, chunkWords_nil] at hrest
        exact hrest rfl
      have hlt : k < ws.length := by
        have := List.length_pos_of_ne_nil hdrop
        rw [List.length_drop] at this
        omega
      simp only [List.getElem?_cons_zero, Option.getD_some, List.length_take]
      omega
    | succ j =>
      simp only [List.length_cons] at hi
      rw [List.getElem?_cons_succ]
      exact ih j (by omega)

theorem joinSepL_append (s : Chars) (a b : List Chars) (ha : a ≠ []) (hb : b ≠ []) :
    joinSepL s (a ++ b) = joinSepL s a ++ s ++ joinSepL s b := by
  induction a with
  | nil => exact absurd rfl ha
  | cons x a' ih =>
    cases a' with
    | nil =>
      cases b with
      | nil => exact absurd rfl hb
      | cons y b' =>
        have h1 : ([x] : List Chars) ++ y :: b' = x :: y :: b' := rfl
        rw [h1, joinSepL_cons_cons]
        rfl
    | cons z a'' =>
      have ih2 := ih (by simp)
      have h1 : (x :: z :: a'') ++ b = x :: ((z :: a'') ++ b) := rfl
      have h2 : (z :: a'') ++ b = z :: (a'' ++ b) := rfl
      rw [h1, h2, joinSepL_cons_cons, ← h2, ih2, joinSepL_cons_cons]
      simp [List.append_assoc]

theorem joinSepL_map_flatten (s : Chars) (cs : List (List Chars))
    (h : ∀ c ∈ cs, c ≠ []) :
    joinSepL s (cs.map (joinSepL s)) = joinSepL s cs.flatten := by
  induction cs with
  | nil => simp [joinSepL]
  | cons c rest ih =>
    cases rest with
    | nil => simp [joinSepL]
    | cons d rest' =>
      have hfl : (d :: rest').flatten ≠ [] := by
        have hd : d ≠ [] := h d (by simp)
        simp only [List.flatten_cons]
        intro hemp
        exact hd (List.append_eq_nil.mp hemp).1
      have hc : c ≠ [] := h c (by simp)
      have hmap : List.map (joinSepL s) (c :: d :: rest')
          = joinSepL s c :: joinSepL s d :: List.map (joinSepL s) rest' := rfl
      rw [hmap, joinSepL_cons_cons, ← List.map_cons (joinSepL s) d rest',
        ih (fun v hv => h v (by simp [hv]))]
      conv_rhs => rw [List.flatten_cons]
      rw [joinSepL_append s c _ hc hfl]

theorem pySplitWs_good (l : Chars) : ∀ w ∈ pySplitWs l, GoodWord w :=
  splitWsAux_good l [] (by simp)

/-- C4: for every document string and every chunk size K > 0, `chunk_text`
yields a finite list of chunks such that joining the chunks with single
spaces reproduces the whitespace-collapsed document; every chunk except
possibly the last has exactly K words, every chunk has at most K words, and
an empty or all-whitespace document yields the empty list rather than an
error. -/
theorem chunk_text_join_and_word_counts (text : String) (k : Nat) (hk : 0 < k) :
    pyJoin " " (chunk_text text k) = collapseWs text ∧
    (∀ i, i + 1 < (chunk_text text k).length →
      wordCount (((chunk_text text k)[i]?).getD "") = k) ∧
    (∀ c ∈ chunk_text text k, wordCount c ≤ k) ∧
    ((∀ c ∈ text.data, c.isWhitespace = true) → chunk_text text k = []) := by
  have hgood : ∀ w ∈ pySplitWs text.data, GoodWord w := pySplitWs_good text.data
  have hwin := chunkWords_window_le k hk (pySplitWs text.data)
  have hflat := chunkWords_flatten k hk (pySplitWs text.data)
  have hwingood : ∀ c ∈ chunkWords k (pySplitWs text.data), ∀ w ∈ c, GoodWord w := by
    intro c hc w hw
    apply hgood
    rw [← hflat]
    exact List.mem_flatten.mpr ⟨c, hc, hw⟩
  refine ⟨?_, ?_, ?_, ?_⟩
  · unfold pyJoin chunk_text collapseWs
    rw [List.map_map]
    have hmapeq : List.map (String.data ∘ fun w => (⟨joinSepL [' '] w⟩ : String))
          (chunkWords k (pySplitWs text.data))
        = List.map (joinSepL [' ']) (chunkWords k (pySplitWs text.data)) := by
      apply List.map_congr_left
      intro c _
      rfl
    have hsp : (" " : String).data = [' '] := rfl
    rw [hsp, hmapeq, joinSepL_map_flatten [' '] _ (fun c hc => (hwin c hc).1), hflat]
  · intro i hi
    unfold chunk_text at hi ⊢
    rw [List.length_map] at hi
    have hi2 : i < (chunkWords k (pySplitWs text.data)).length := by omega
    rw [List.getElem?_map, List.getElem?_eq_getElem hi2]
    simp only [Option.map_some', Option.getD_some]
    have hmem : (chunkWords k (pySplitWs text.data))[i] ∈ chunkWords k (pySplitWs text.data) :=
      List.getElem_mem hi2
    have hwc : wordCount ⟨joinSepL [' '] ((chunkWords k (pySplitWs text.data))[i])⟩
        = (pySplitWs (joinSepL [' '] ((chunkWords k (pySplitWs text.data))[i]))).length := rfl
    rw [hwc, pySplitWs_join _ (hwingood _ hmem)]
    have heq := chunkWords_window_eq k hk (pySplitWs text.data) i (by omega)
    rw [List.getElem?_eq_getElem hi2] at heq
    simpa using heq
  · intro c hc
    unfold chunk_text at hc
    obtain ⟨w, hwmem, rfl⟩ := List.mem_map.mp hc
    have hwc : wordCount ⟨joinSepL [' '] w⟩ = (pySplitWs (joinSepL [' '] w)).length := rfl
    rw [hwc, pySplitWs_join w (hwingood w hwmem)]
    exact (hwin w hwmem).2
  · intro hall
    unfold chunk_text
    rw [pySplitWs_all_ws text.data hall, chunkWords_nil]
    rfl

/-- Witness for C4: the chunker at document "alpha beta gamma" and K = 2. -/
theorem chunk_text_join_and_word_counts_witness :
    0 < 2 ∧
    (pyJoin " " (chunk_text "alpha beta gamma" 2) = collapseWs "alpha beta gamma" ∧
    (∀ i, i + 1 < (chunk_text "alpha beta gamma" 2).length →
      wordCount (((chunk_text "alpha beta gamma" 2)[i]?).getD "") = 2) ∧
    (∀ c ∈ chunk_text "alpha beta gamma" 2, wordCount c ≤ 2) ∧
    ((∀ c ∈ ("alpha beta gamma" : String).data, c.isWhitespace = true) →
      chunk_text "alpha beta gamma" 2 = [])) :=
  ⟨by decide, chunk_text_join_and_word_counts "alpha beta gamma" 2 (by decide)⟩

theorem pdfPagesLoop_length_le (pages : List PageResult) :
    ∀ acc : Chars, acc.length ≤ sizeLimit →
      (pdfPagesLoop pages acc).length ≤ sizeLimit + pdfTruncMarker.data.length := by
  induction pages with
  | nil =>
    intro acc hacc
    simp only [pdfPagesLoop]
    omega
  | cons p rest ih =>
    intro acc hacc
    cases p with
    | err e => exact ih acc hacc
    | txt t =>
      by_cases hne : t.data = []
      · simp only [pdfPagesLoop, hne, ne_eq, not_true_eq_false, if_false]
        rw [if_neg (by omega)]
        exact ih acc hacc
      · simp only [pdfPagesLoop, ne_eq, hne, not_false_eq_true, if_true]
        split
        · rename_i hgt
          rw [List.length_append, List.length_take]
          omega
        · rename_i hle
          push_neg at hle
          exact ih _ hle

/-- C3: for every PDF attachment, extraction visits at most the first 50
pages; the returned text never exceeds 100000 characters plus the
truncation marker; a failing page is skipped and processing continues with
the next page; and once the accumulated length exceeds 100000 characters
the text is truncated to exactly 100000 characters, the marker is appended,
and no further pages are processed (the remaining pages are ignored). -/
theorem extract_pdf_page_cap_and_size_cap (doc : PdfDoc) :
    extractPdfText doc = extractPdfText (doc.take 50) ∧
    (extractPdfText doc).length ≤ sizeLimit + pdfTruncMarker.length ∧
    (∀ e rest acc, pdfPagesLoop (.err e :: rest) acc = pdfPagesLoop rest acc) ∧
    (∀ t rest acc, t.data ≠ [] → sizeLimit < (acc ++ t.data ++ ['\n']).length →
      pdfPagesLoop (.txt t :: rest) acc
        = (acc ++ t.data ++ ['\n']).take sizeLimit ++ pdfTruncMarker.data) := by
  refine ⟨?_, ?_, ?_, ?_⟩
  · unfold extractPdfText
    rw [List.take_take]
    simp
  · have h := pdfPagesLoop_length_le (doc.take 50) [] (by simp [sizeLimit])
    have hlen : (extractPdfText doc).length = (pdfPagesLoop (doc.take 50) []).length := rfl
    have hmark : pdfTruncMarker.length = pdfTruncMarker.data.length := rfl
    omega
  · intro e rest acc
    rfl
  · intro t rest acc hne hgt
    simp only [pdfPagesLoop, if_pos hne, hne, ite_true]
    rw [if_pos hgt]

/-- Witness for C3: a page text pushing a 100001-character accumulator over
the cap is truncated to exactly `sizeLimit` characters plus the marker, and
the remaining pages (here one more page) are not processed. -/
theorem extract_pdf_page_cap_and_size_cap_witness :
    extractPdfText [] = extractPdfText ([].take 50) ∧
    (extractPdfText []).length ≤ sizeLimit + pdfTruncMarker.length ∧
    (∀ e rest acc, pdfPagesLoop (.err e :: rest) acc = pdfPagesLoop rest acc) ∧
    (∀ t rest acc, t.data ≠ [] → sizeLimit < (acc ++ t.data ++ ['\n']).length →
      pdfPagesLoop (.txt t :: rest) acc
        = (acc ++ t.data ++ ['\n']).take sizeLimit ++ pdfTruncMarker.data) ∧
    pdfPagesLoop [.txt "b", .txt "ignored"] (List.replicate 100001 'a')
      = ((List.replicate 100001 'a') ++ "b".data ++ ['\n']).take sizeLimit
        ++ pdfTruncMarker.data := by
  have h := extract_pdf_page_cap_and_size_cap []
  refine ⟨h.1, h.2.1, h.2.2.1, h.2.2.2, ?_⟩
  refine h.2.2.2 "b" [.txt "ignored"] (List.replicate 100001 'a') (by decide) ?_
  have hb : ("b".data).length = 1 := rfl
  rw [List.length_append, List.length_append, List.length_replicate, hb]
  simp [sizeLimit]

/-- C5: every Indexed Point produced from one message's chunks carries the
identical payload, namely the whole `details` record: the message's full
metadata and its full composite document text, not the chunk's own slice.
The points differ only in their embedding vector (the encoding of their own
chunk) and their sequentially assigned numeric identifier. -/
theorem pointsForMessage_identical_payload {V : Type} (encode : String → V)
    (startId : Nat) (details : EmailDetails) :
    (pointsForMessage encode startId details).map (fun p => p.payload)
      = List.replicate (pointsForMessage encode startId details).length details ∧
    (pointsForMessage encode startId details).map (fun p => p.id)
      = (List.range (chunk_text details.text 200).length).map (fun i => startId + i) ∧
    (pointsForMessage encode startId details).map (fun p => p.vector)
      = (chunk_text details.text 200).map encode := by
  refine ⟨?_, ?_, ?_⟩
  · rw [List.eq_replicate_iff]
    constructor
    · rw [List.length_map]
    · intro b hb
      unfold pointsForMessage at hb
      rw [List.map_map] at hb
      obtain ⟨q, -, rfl⟩ := List.mem_map.mp hb
      rfl
  · unfold pointsForMessage
    rw [List.map_map]
    have h1 : ((fun p : IndexedPoint V => p.id) ∘
        (fun p : Nat × String => ({ id := startId + p.1, vector := encode p.2, payload := details } : IndexedPoint V)))
        = (fun i => startId + i) ∘ Prod.fst := rfl
    rw [h1, ← List.map_map, List.enum_map_fst]
  · unfold pointsForMessage
    rw [List.map_map]
    have h1 : ((fun p : IndexedPoint V => p.vector) ∘
        (fun p : Nat × String => ({ id := startId + p.1, vector := encode p.2, payload := details } : IndexedPoint V)))
        = encode ∘ Prod.snd := rfl
    rw [h1, ← List.map_map, List.enum_map_snd]

theorem composite_text_eq (subject sender toAddr date body : String) (atts : List String) :
    (if atts ≠ [] then
       ("Subject: " ++ subject ++ "\nFrom: " ++ sender ++ "\nTo: " ++ toAddr
          ++ "\nDate: " ++ date ++ "\n\n" ++ body)
         ++ "\n\nAttachments:\n" ++ pyJoin "\n" atts
     else "Subject: " ++ subject ++ "\nFrom: " ++ sender ++ "\nTo: " ++ toAddr
       ++ "\nDate: " ++ date ++ "\n\n" ++ body)
    = headerBlockSpec subject sender toAddr date ++ body
      ++ (if atts = [] then "" else attachSectionSpec atts) := by
  unfold headerBlockSpec attachSectionSpec
  by_cases hatt : atts = []
  · rw [if_neg (by simp [hatt]), if_pos hatt]
    simp [String.append_assoc]
  · rw [if_pos (by simp [hatt]), if_neg hatt]
    simp [String.append_assoc]

/-- C6 (amended): the composite document equals the header block
(Subject/From/To/Date, one per line) + blank line + normalized body,
followed by the "Attachments:" section listing the walk's extracted
attachment texts in encounter order; the section is present if and only if
the walk collected at least one attachment text, even when every collected
text is empty. -/
theorem get_email_details_composite_structure (env : WalkEnv) (msg : RawMessage)
    (msgId : String) (parts : List MimePart) (st : WalkState)
    (hparts : msg.payloadParts = some parts)
    (hwalk : walkParts env parts ⟨"", []⟩ = .ok st) :
    get_email_details env msg msgId = .ok
      { id := msgId, thread_id := msg.threadId,
        subject := headerGet msg.headers "Subject",
        sender := headerGet msg.headers "From",
        «to» := headerGet msg.headers "To",
        date := headerGet msg.headers "Date",
        text := headerBlockSpec (headerGet msg.headers "Subject")
            (headerGet msg.headers "From") (headerGet msg.headers "To")
            (headerGet msg.headers "Date")
          ++ strip_quoted_and_signature (env.replyFragments st.bodyText)
          ++ (if st.attachmentsText = [] then ""
              else attachSectionSpec st.attachmentsText) } := by
  have htext := composite_text_eq (headerGet msg.headers "Subject")
    (headerGet msg.headers "From") (headerGet msg.headers "To")
    (headerGet msg.headers "Date")
    (strip_quoted_and_signature (env.replyFragments st.bodyText)) st.attachmentsText
  simp only [get_email_details, hparts, hwalk, htext]

/-- C6 counterexample: a message whose only attachment extracts to the
empty string.  No attachment produced non-empty text, yet the walk collects
the empty text and the composite document does carry the "Attachments:"
section — the code emits the section whenever the collected list is
nonempty, not only when some text is nonempty. -/
theorem get_email_details_empty_attachment_has_section :
    walkParts emptyPdfEnv [.node "application/pdf" (some "a.pdf") ⟨none, some "att1"⟩ []]
        ⟨"", []⟩ = .ok ⟨"", [""]⟩ ∧
    (∀ a ∈ ([""] : List String), a = "") ∧
    get_email_details emptyPdfEnv emptyPdfMsg "m1" = .ok
      ⟨"m1", none, "", "", "", "",
        "Subject: \nFrom: \nTo: \nDate: \n\n\n\nAttachments:\n"⟩ :=
  ⟨rfl, by simp, rfl⟩

/-- C10: a part whose declared MIME type is PDF or DOCX, whose body carries
a (truthy) attachmentId, and whose filename field is absent makes the walk
raise an uncaught `AttributeError` (`filename.lower()` on `None`) once the
attachment fetch has returned, aborting `get_email_details` and with it the
whole ingestion run; and when a filename is present, extraction is
attempted only when it ends case-insensitively in ".pdf" or ".docx" (any
other filename leaves the walk state unchanged). -/
theorem missing_filename_aborts_run (env : WalkEnv) (mt : String) (bd : PartBody)
    (sub rest : List MimePart) (st : WalkState) (attachId fileData : String)
    (hs : List (String × String)) (tid : Option String) (pb : PartBody) (msgId : String)
    (hmt : mt = "application/pdf" ∨ mt = docxMime)
    (hid : bd.attachmentId = some attachId) (hne : attachId ≠ "")
    (hfetch : env.fetchAttachment attachId = .ok fileData) :
    processPart env (.node mt none bd sub) st
        = .error "AttributeError: NoneType object has no attribute lower" ∧
    walkParts env (.node mt none bd sub :: rest) st
        = .error "AttributeError: NoneType object has no attribute lower" ∧
    get_email_details env ⟨hs, tid, some (.node mt none bd sub :: rest), pb⟩ msgId
        = .error "AttributeError: NoneType object has no attribute lower" ∧
    (∀ (V : Type) (fetchMsg : String → RawMessage) (encode : String → V)
        (mid : String) (mids : List String) (pts : List (IndexedPoint V)) (ctr : Nat),
      fetchMsg mid = ⟨hs, tid, some (.node mt none bd sub :: rest), pb⟩ →
      ingestLoop env fetchMsg encode (mid :: mids) pts ctr
        = .error "AttributeError: NoneType object has no attribute lower") ∧
    (∀ fn : String, pyEndsWith (pyLower fn) ".pdf" = false →
      pyEndsWith (pyLower fn) ".docx" = false →
      processPart env (.node mt (some fn) bd sub) st = .ok st) := by
  have hmt1 : ¬ mt = "text/plain" := by
    rcases hmt with rfl | rfl <;> decide
  have hproc : ∀ st0 : WalkState, processPart env (.node mt none bd sub) st0
      = .error "AttributeError: NoneType object has no attribute lower" := by
    intro st0
    simp only [processPart, if_neg hmt1, if_pos hmt, hid, ne_eq, hne,
      not_false_eq_true, if_true, hfetch]
  have hwp : ∀ st0 : WalkState, walkPart env (.node mt none bd sub) st0
      = .error "AttributeError: NoneType object has no attribute lower" := by
    intro st0
    unfold walkPart
    rw [hproc st0]
  have hwps : ∀ st0 : WalkState, walkParts env (.node mt none bd sub :: rest) st0
      = .error "AttributeError: NoneType object has no attribute lower" := by
    intro st0
    unfold walkParts
    rw [hwp st0]
  have hged : ∀ mid0 : String,
      get_email_details env ⟨hs, tid, some (.node mt none bd sub :: rest), pb⟩ mid0
        = .error "AttributeError: NoneType object has no attribute lower" := by
    intro mid0
    simp only [get_email_details, hwps ⟨"", []⟩]
  refine ⟨hproc st, hwps st, hged msgId, ?_, ?_⟩
  · intro V fetchMsg encode mid mids pts ctr hfm
    unfold ingestLoop
    rw [hfm, hged mid]
  · intro fn h1 h2
    simp only [processPart, if_neg hmt1, if_pos hmt, hid, ne_eq, hne,
      not_false_eq_true, if_true, hfetch, h1, h2, Bool.false_eq_true, if_false]

/-- Witness for C10: a PDF part with attachmentId "att1" and no filename
crashes the walk and the run; a part with filename "notes.txt" is skipped. -/
theorem missing_filename_aborts_run_witness :
    processPart emptyPdfEnv (.node "application/pdf" none ⟨none, some "att1"⟩ [])
        ⟨"", []⟩ = .error "AttributeError: NoneType object has no attribute lower" ∧
    get_email_details emptyPdfEnv
        ⟨[], none, some [.node "application/pdf" none ⟨none, some "att1"⟩ []], ⟨none, none⟩⟩
        "m1" = .error "AttributeError: NoneType object has no attribute lower" ∧
    processPart emptyPdfEnv (.node "application/pdf" (some "notes.txt") ⟨none, some "att1"⟩ [])
        ⟨"", []⟩ = .ok ⟨"", []⟩ := by
  have h := missing_filename_aborts_run emptyPdfEnv "application/pdf" ⟨none, some "att1"⟩
    [] [] ⟨"", []⟩ "att1" "att1" [] none ⟨none, none⟩ "m1"
    (Or.inl rfl) rfl (by decide) rfl
  exact ⟨h.1, h.2.2.1, h.2.2.2.2 "notes.txt" (by decide) (by decide)⟩

/-- C2: for every attachment byte payload (reaching the extractor through
the parse oracles) and every filename string, `extract_attachment_text`
never propagates an exception: a whole-document PDF or DOCX parse failure
returns the diagnostic placeholder, a per-page PDF failure skips the page
and degrades to partial text, and any other extension returns empty text;
the inline duplicate inside `walk_parts` likewise returns normally whenever
the part carries a filename and the payload fetch succeeded. -/
theorem extract_attachment_never_raises (parsePdf : Except String PdfDoc)
    (parseDocx : Except String (List String)) (filename : String)
    (env : WalkEnv) (st : WalkState) :
    (∃ s, extract_attachment_text parsePdf parseDocx filename = .ok s) ∧
    (∀ e, parsePdf = .error e → pyEndsWith (pyLower filename) ".pdf" = true →
      extract_attachment_text parsePdf parseDocx filename = .ok (pdfFailMsg e)) ∧
    (∀ e, parseDocx = .error e → pyEndsWith (pyLower filename) ".pdf" = false →
      pyEndsWith (pyLower filename) ".docx" = true →
      extract_attachment_text parsePdf parseDocx filename = .ok (docxFailMsg e)) ∧
    (pyEndsWith (pyLower filename) ".pdf" = false →
      pyEndsWith (pyLower filename) ".docx" = false →
      extract_attachment_text parsePdf parseDocx filename = .ok "") ∧
    (∀ e rest acc, pdfPagesLoop (.err e :: rest) acc = pdfPagesLoop rest acc) ∧
    (∀ (mt fn : String) (bd : PartBody) (sub : List MimePart),
      (∀ a, bd.attachmentId = some a → a ≠ "" →
        ∃ fileData, env.fetchAttachment a = .ok fileData) →
      ∃ st2, processPart env (.node mt (some fn) bd sub) st = .ok st2) := by
  refine ⟨?_, ?_, ?_, ?_, ?_, ?_⟩
  · unfold extract_attachment_text
    by_cases h1 : pyEndsWith (pyLower filename) ".pdf"
    · rw [if_pos h1]
      cases parsePdf with
      | error e => exact ⟨pdfFailMsg e, rfl⟩
      | ok doc => exact ⟨extractPdfText doc, rfl⟩
    · rw [if_neg h1]
      by_cases h2 : pyEndsWith (pyLower filename) ".docx"
      · rw [if_pos h2]
        cases parseDocx with
        | error e => exact ⟨docxFailMsg e, rfl⟩
        | ok paras => exact ⟨pyJoin "\n" paras, rfl⟩
      · rw [if_neg h2]
        exact ⟨"", rfl⟩
  · intro e he h1
    subst he
    unfold extract_attachment_text
    rw [if_pos h1]
    rfl
  · intro e he h1 h2
    subst he
    unfold extract_attachment_text
    rw [if_neg (by simp [h1]), if_pos h2]
    rfl
  · intro h1 h2
    unfold extract_attachment_text
    rw [if_neg (by simp [h1]), if_neg (by simp [h2])]
    rfl
  · intro e rest acc
    rfl
  · intro mt fn bd sub hfetch
    simp only [processPart]
    repeat' split
    all_goals try exact ⟨_, rfl⟩
    rename_i hmt1 hmt2 x1 a heq1 ha x2 e heq2
    obtain ⟨fileData, hfd⟩ := hfetch a heq1 ha
    rw [heq2] at hfd
    cases hfd

/-- Witness for C2: a corrupt PDF named "a.PDF" yields the placeholder, a
".txt" attachment yields empty text, and a failing first page is skipped. -/
theorem extract_attachment_never_raises_witness :
    extract_attachment_text (.error "boom") (.ok []) "a.PDF" = .ok (pdfFailMsg "boom") ∧
    extract_attachment_text (.error "boom") (.ok []) "notes.txt" = .ok "" ∧
    pdfPagesLoop [.err "bad page"] [] = pdfPagesLoop [] [] := by
  have h1 := extract_attachment_never_raises (.error "boom") (.ok []) "a.PDF"
    emptyPdfEnv ⟨"", []⟩
  have h2 := extract_attachment_never_raises (.error "boom") (.ok []) "notes.txt"
    emptyPdfEnv ⟨"", []⟩
  exact ⟨h1.2.1 "boom" rfl (by decide),
    h2.2.2.2.1 (by decide) (by decide),
    h1.2.2.2.2.1 "bad page" [] []⟩

/-- C1 (code behaviour at the failing input): with a prior cursor "42" and
a change-log query that succeeds with zero matching events, the run falls
back to the recent-message listing and returns its ids — `if not
message_ids:` conflates the empty list with the `None` failure sentinel —
contradicting the claim that the returned id set is empty and the fallback
is never invoked. -/
theorem fetch_new_messages_zero_events_uses_fallback :
    collectHistoryIds ⟨some []⟩ = [] ∧
    zeroEventsOracle.historyList "42" = .ok ⟨some []⟩ ∧
    fetch_new_messages zeroEventsOracle (some "42") 50
      = ⟨["m1"], true, "99"⟩ :=
  ⟨rfl, rfl, rfl⟩

theorem isSubstr_iff_exists_drop (pat l : Chars) :
    isSubstr pat l = true ↔ ∃ n, pat <+: l.drop n := by
  induction l with
  | nil =>
    simp only [isSubstr, isPre_iff, List.drop_nil]
    exact ⟨fun h => ⟨0, h⟩, fun ⟨_, h⟩ => h⟩
  | cons c cs ih =>
    simp only [isSubstr, Bool.or_eq_true, isPre_iff, ih]
    constructor
    · rintro (h | ⟨n, h⟩)
      · exact ⟨0, h⟩
      · exact ⟨n + 1, by simpa using h⟩
    · rintro ⟨n, h⟩
      cases n with
      | zero => exact Or.inl h
      | succ n => exact Or.inr ⟨n, by simpa using h⟩

theorem isSubstr_iff_occurs (pat l : Chars) : isSubstr pat l = true ↔ pat <:+: l := by
  rw [isSubstr_iff_exists_drop]
  constructor
  · rintro ⟨n, s, hs⟩
    refine ⟨l.take n, s, ?_⟩
    rw [List.append_assoc, hs, List.take_append_drop]
  · rintro ⟨s, t, rfl⟩
    refine ⟨s.length, t, ?_⟩
    rw [List.append_assoc, List.drop_left]

/-- C8: scroll-query filtering is applied client-side after a page of at
most `limit` points was fetched: the filtered result never exceeds the
page (hence the limit), a point of the page is kept iff every built filter
condition matches it, and a condition matches iff the lowercased filter
value is a substring (infix) of the lowercased string field value — a
missing field comparing as the empty string — while a non-string field is
compared by exact equality against the (string) filter value. -/
theorem query_all_points_filter_keeps_iff (page : List QPoint)
    (fsub fsen furl fcat : Option String) (limit : Nat)
    (hlim : page.length ≤ limit) :
    (query_all_points_filter page fsub fsen furl fcat).length ≤ limit ∧
    (∀ p, p ∈ query_all_points_filter page fsub fsen furl fcat ↔
      p ∈ page ∧ ∀ c ∈ buildConditions fsub fsen furl fcat, conditionMatches p c = true) ∧
    (∀ (p : QPoint) (c : Condition), conditionMatches p c = true ↔
      (match payloadGet p.payload c.key with
       | .str actual => (pyLower c.value).data <:+: (pyLower actual).data
       | v => v = .str c.value)) := by
  refine ⟨?_, ?_, ?_⟩
  · unfold query_all_points_filter
    dsimp only
    split
    · exact le_trans (List.length_filter_le _ _) hlim
    · exact hlim
  · intro p
    unfold query_all_points_filter
    dsimp only
    split
    · rw [List.mem_filter, List.all_eq_true]
    · rename_i hconds
      push_neg at hconds
      rw [hconds]
      simp
  · intro p c
    unfold conditionMatches
    cases hv : payloadGet p.payload c.key with
    | str actual => exact isSubstr_iff_occurs _ _
    | int n => simpa using beq_iff_eq ..
    | boolean b => simpa using beq_iff_eq ..

/-- Witness for C8: the spec scenario.  Filtering the three stored points
by sender "john@example.com" keeps exactly the first and third point
(case-insensitive substring match), so exactly 2 of 3 points survive. -/
theorem query_all_points_filter_keeps_iff_witness :
    ([⟨0, [("sender", .str "John Doe <john@example.com>")]⟩,
      ⟨1, [("sender", .str "Jane <jane@example.com>")]⟩,
      ⟨2, [("sender", .str "J <JOHN@EXAMPLE.COM>")]⟩] : List QPoint).length ≤ 3 ∧
    (query_all_points_filter
        [⟨0, [("sender", .str "John Doe <john@example.com>")]⟩,
         ⟨1, [("sender", .str "Jane <jane@example.com>")]⟩,
         ⟨2, [("sender", .str "J <JOHN@EXAMPLE.COM>")]⟩]
        none (some "john@example.com") none none).length ≤ 3 ∧
    query_all_points_filter
        [⟨0, [("sender", .str "John Doe <john@example.com>")]⟩,
         ⟨1, [("sender", .str "Jane <jane@example.com>")]⟩,
         ⟨2, [("sender", .str "J <JOHN@EXAMPLE.COM>")]⟩]
        none (some "john@example.com") none none
      = [⟨0, [("sender", .str "John Doe <john@example.com>")]⟩,
         ⟨2, [("sender", .str "J <JOHN@EXAMPLE.COM>")]⟩] := by
  refine ⟨by decide, ?_, by decide⟩
  exact (query_all_points_filter_keeps_iff
    [⟨0, [("sender", .str "John Doe <john@example.com>")]⟩,
     ⟨1, [("sender", .str "Jane <jane@example.com>")]⟩,
     ⟨2, [("sender", .str "J <JOHN@EXAMPLE.COM>")]⟩]
    none (some "john@example.com") none none 3 (by decide)).1

theorem charsLe_trans : ∀ l1 l2 l3 : Chars,
    charsLe l1 l2 = true → charsLe l2 l3 = true → charsLe l1 l3 = true := by
  intro l1
  induction l1 with
  | nil => intro l2 l3 _ _; rfl
  | cons a as ih =>
    intro l2 l3 h12 h23
    cases l2 with
    | nil => simp [charsLe] at h12
    | cons b bs =>
      cases l3 with
      | nil => simp [charsLe] at h23
      | cons c cs =>
        simp only [charsLe] at h12 h23 ⊢
        by_cases hab : a.toNat = b.toNat <;> by_cases hbc : b.toNat = c.toNat
        · rw [if_pos hab] at h12
          rw [if_pos hbc] at h23
          rw [if_pos (hab.trans hbc)]
          exact ih bs cs h12 h23
        · rw [if_pos hab] at h12
          rw [if_neg hbc] at h23
          simp only [decide_eq_true_eq] at h23
          rw [if_neg (by omega)]
          simp only [decide_eq_true_eq]
          omega
        · rw [if_neg hab] at h12
          rw [if_pos hbc] at h23
          simp only [decide_eq_true_eq] at h12
          rw [if_neg (by omega)]
          simp only [decide_eq_true_eq]
          omega
        · rw [if_neg hab] at h12
          rw [if_neg hbc] at h23
          simp only [decide_eq_true_eq] at h12 h23
          rw [if_neg (by omega)]
          simp only [decide_eq_true_eq]
          omega

theorem charsLe_total : ∀ l1 l2 : Chars, charsLe l1 l2 = true ∨ charsLe l2 l1 = true := by
  intro l1
  induction l1 with
  | nil => intro l2; exact Or.inl rfl
  | cons a as ih =>
    intro l2
    cases l2 with
    | nil => exact Or.inr rfl
    | cons b bs =>
      simp only [charsLe]
      by_cases hab : a.toNat = b.toNat
      · rw [if_pos hab, if_pos hab.symm]
        exact ih bs
      · rw [if_neg hab, if_neg (by omega)]
        simp only [decide_eq_true_eq]
        omega

theorem foldl_append_eq_flatMap {α β : Type} (f : α → List β) (l : List α) :
    ∀ acc : List β, l.foldl (fun a p => a ++ f p) acc = acc ++ l.flatMap f := by
  induction l with
  | nil => intro acc; simp
  | cons x xs ih =>
    intro acc
    rw [List.foldl_cons, ih, List.flatMap_cons, List.append_assoc]

/-- C9 counterexample: the data row for a point with id 7 and payload
field "subject" = "hi" is `7,"hi"`: its first field, the id, is rendered by
`str(point.id)` without the double quotes the claim asserts for every
field. -/
theorem query_all_points_csv_id_unquoted :
    query_all_points_csv [⟨7, [("subject", .str "hi")]⟩]
      = ["id,\"subject\"", "7,\"hi\""] ∧
    ("7,\"hi\"" : String).data.take 1 = ['7'] ∧ ('7' : Char) ≠ '"' := by
  refine ⟨by decide, by decide, by decide⟩

/-- C9 (amended): the CSV output is a header row of the unquoted `id`
followed by the sorted union of all payload keys across the returned
points, each key double-quoted, and one row per point in which the id is
rendered unquoted and every payload field is wrapped in double quotes, with
embedded double-quote characters in string values doubled and a key missing
from a point's payload rendering as the empty quoted string. -/
theorem query_all_points_csv_structure (points : List QPoint) (hne : points ≠ []) :
    query_all_points_csv points
      = csvHeader (sortedPayloadKeys points)
        :: points.map (csvRow (sortedPayloadKeys points)) ∧
    List.Pairwise (fun a b => strLe a b = true) (sortedPayloadKeys points) ∧
    (sortedPayloadKeys points).Nodup ∧
    (∀ k, k ∈ sortedPayloadKeys points ↔
      ∃ p ∈ points, k ∈ p.payload.map (fun kv => kv.1)) ∧
    (∀ (p : QPoint) (k : String), k ∉ p.payload.map (fun kv => kv.1) →
      csvField (payloadGet p.payload k) = "\"\"") ∧
    (∀ s : String, csvField (.str s) = "\"" ++ ⟨doubleQuotes s.data⟩ ++ "\"") ∧
    (∀ l : Chars, doubleQuotes l
      = l.flatMap (fun c => if c = '"' then ['"', '"'] else [c])) := by
  haveI : IsTrans String fun a b => strLe a b = true :=
    ⟨fun a b c => charsLe_trans a.data b.data c.data⟩
  haveI : IsTotal String fun a b => strLe a b = true :=
    ⟨fun a b => charsLe_total a.data b.data⟩
  refine ⟨?_, ?_, ?_, ?_, ?_, ?_, ?_⟩
  · unfold query_all_points_csv
    rw [if_pos hne]
  · exact List.sorted_insertionSort _ _
  · unfold sortedPayloadKeys sortStrings
    exact ((List.perm_insertionSort _ _).symm).nodup (List.nodup_dedup _)
  · intro k
    unfold sortedPayloadKeys sortStrings
    rw [(List.perm_insertionSort _ _).mem_iff, List.mem_dedup,
      foldl_append_eq_flatMap, List.nil_append, List.mem_flatMap]
  · intro p k hk
    have hfind : p.payload.find? (fun kv => kv.1 = k) = none := by
      rw [List.find?_eq_none]
      intro kv hkv
      simp only [decide_eq_true_eq]
      intro heq
      exact hk (List.mem_map.mpr ⟨kv, hkv, heq⟩)
    unfold payloadGet
    rw [hfind]
    rfl
  · intro s
    rfl
  · intro l
    induction l with
    | nil => rfl
    | cons c cs ih =>
      simp only [doubleQuotes, List.flatMap_cons]
      by_cases hc : c = '"'
      · rw [if_pos hc, if_pos hc, ih]
        rfl
      · rw [if_neg hc, if_neg hc, ih]
        rfl

/-- Witness for C9 (amended), at the spec scenario: two points with keys
subject and sender, the second missing sender, give header
`id,"sender","subject"` and an empty quoted field for the missing key. -/
theorem query_all_points_csv_structure_witness :
    ([⟨0, [("subject", .str "s1"), ("sender", .str "a@b")]⟩,
      ⟨1, [("subject", .str "s2")]⟩] : List QPoint) ≠ [] ∧
    query_all_points_csv
        [⟨0, [("subject", .str "s1"), ("sender", .str "a@b")]⟩,
         ⟨1, [("subject", .str "s2")]⟩]
      = ["id,\"sender\",\"subject\"", "0,\"a@b\",\"s1\"", "1,\"\",\"s2\""] ∧
    csvField (payloadGet ([("subject", .str "s2")] : List (String × PValue)) "sender")
      = "\"\"" := by
  refine ⟨by decide, by decide, ?_⟩
  exact (query_all_points_csv_structure
      [⟨0, [("subject", .str "s1"), ("sender", .str "a@b")]⟩,
       ⟨1, [("subject", .str "s2")]⟩] (by decide)).2.2.2.2.1
    ⟨1, [("subject", .str "s2")]⟩ "sender" (by decide)

/-- Witness for C6 (amended), at the single-PDF-attachment message: the
walk collects the one (empty) attachment text and the composite document is
the header block + normalized empty body + the "Attachments:" section. -/
theorem get_email_details_composite_structure_witness :
    emptyPdfMsg.payloadParts
      = some [.node "application/pdf" (some "a.pdf") ⟨none, some "att1"⟩ []] ∧
    walkParts emptyPdfEnv [.node "application/pdf" (some "a.pdf") ⟨none, some "att1"⟩ []]
      ⟨"", []⟩ = .ok ⟨"", [""]⟩ ∧
    get_email_details emptyPdfEnv emptyPdfMsg "m1" = .ok
      { id := "m1", thread_id := emptyPdfMsg.threadId,
        subject := headerGet emptyPdfMsg.headers "Subject",
        sender := headerGet emptyPdfMsg.headers "From",
        «to» := headerGet emptyPdfMsg.headers "To",
        date := headerGet emptyPdfMsg.headers "Date",
        text := headerBlockSpec (headerGet emptyPdfMsg.headers "Subject")
            (headerGet emptyPdfMsg.headers "From") (headerGet emptyPdfMsg.headers "To")
            (headerGet emptyPdfMsg.headers "Date")
          ++ strip_quoted_and_signature (emptyPdfEnv.replyFragments (WalkState.mk "" [""]).bodyText)
          ++ (if (WalkState.mk "" [""]).attachmentsText = [] then ""
              else attachSectionSpec (WalkState.mk "" [""]).attachmentsText) } :=
  ⟨rfl, rfl,
    get_email_details_composite_structure emptyPdfEnv emptyPdfMsg "m1"
      [.node "application/pdf" (some "a.pdf") ⟨none, some "att1"⟩ []]
      ⟨"", [""]⟩ rfl rfl⟩
